import Mathlib

/-!
Verification development for the workspace tree-node classes of the
Databricks VS Code extension excerpt
(`DatabricksWorkspaceNotebook.ts` and `DatabricksWorkspaceTreeItem.ts`).

Strings are embedded as `List Char` (JavaScript strings).  The Node.js
`path.posix` helpers (`join`, `dirname`, `basename`), the JavaScript
first-occurrence `String.prototype.replace`, and `fs.existsSync` are
modelled explicitly below; configuration and collaborator objects that are
not part of the excerpt (`ThisExtension`, `DatabricksConnectionManager`,
`LanguageFileExtensionMapper`, the API service) are modelled from the spec
as an explicit environment record, so every theorem quantifies over their
possible behaviours.
-/

/-- JavaScript strings, embedded as lists of characters. -/
abbrev JStr := List Char

/-- Boolean prefix test on character lists (`String.prototype.startsWith`). -/
def isPfx : JStr → JStr → Bool
  | [], _ => true
  | _ :: _, [] => false
  | a :: as, b :: bs => if a = b then isPfx as bs else false

/-- Boolean substring-occurrence test: does `pat` occur contiguously in `s`? -/
def occurs (pat : JStr) : JStr → Bool
  | [] => isPfx pat []
  | c :: t => isPfx pat (c :: t) || occurs pat t

/-- JavaScript `s.replace(pat, rep)` with a string pattern: replaces only the
first occurrence of `pat` in `s`, returning `s` unchanged when `pat` does not
occur. -/
def replaceFirst (s pat rep : JStr) : JStr :=
  match s with
  | [] => if isPfx pat [] then rep else []
  | c :: t =>
    if isPfx pat (c :: t) then rep ++ (c :: t).drop pat.length
    else c :: replaceFirst t pat rep

/-- Helper for `splitSlash`: prepend a character to the first chunk. -/
def consHead (c : Char) : List JStr → List JStr
  | [] => [[c]]
  | a :: as => (c :: a) :: as

/-- Split a path into its `'/'`-separated segments (separators excluded;
empty segments are kept, so `"/a//b"` splits into `["", "a", "", "b"]`). -/
def splitSlash : JStr → List JStr
  | [] => [[]]
  | c :: t => if c = '/' then [] :: splitSlash t else consHead c (splitSlash t)

/-- Join segments with `'/'` (the inverse of `splitSlash` on slash-free
nonempty segment lists). -/
def joinSegs : List JStr → JStr
  | [] => []
  | [a] => a
  | a :: b :: rest => a ++ '/' :: joinSegs (b :: rest)

/-- One step of Node's `normalizeString`: drop empty and `"."` segments,
resolve `".."` against the accumulated (reversed) segment stack. -/
def normStep (abs : Bool) (acc : List JStr) (sg : JStr) : List JStr :=
  if sg = [] ∨ sg = ['.'] then acc
  else if sg = ['.', '.'] then
    match acc with
    | [] => if abs then [] else [sg]
    | t :: rest => if t = ['.', '.'] then sg :: acc else rest
  else sg :: acc

/-- Node's `normalizeString`: resolve `"."`/`".."`/empty segments.  `abs`
tells whether the path is absolute (in which case `".."` at the root is
dropped rather than kept). -/
def normSegs (abs : Bool) (segs : List JStr) : List JStr :=
  (segs.foldl (normStep abs) []).reverse

/-- Node `path.posix.normalize`: splits on `'/'`, resolves dot segments,
and re-renders, preserving a leading `'/'` (absolute path) and a trailing
`'/'`. -/
def pathNormalize (p : JStr) : JStr :=
  if p = [] then ['.']
  else
    let ss := normSegs (decide (p.head? = some '/')) (splitSlash p)
    if ss = [] then
      if p.head? = some '/' then ['/']
      else if p.getLast? = some '/' then ['.', '/'] else ['.']
    else
      (if p.head? = some '/' then ['/'] else []) ++ joinSegs ss ++
      (if p.getLast? = some '/' then ['/'] else [])

/-- Node `path.posix.join`: drop empty arguments, join the rest with `'/'`,
then normalize; with nothing to join the result is `"."`. -/
def pathJoin (args : List JStr) : JStr :=
  match args.filter (· ≠ []) with
  | [] => ['.']
  | parts => pathNormalize (joinSegs parts)

/-- Node `path.posix.dirname`: everything before the last `'/'` that
precedes the final non-slash run, with Node's special cases for rooted
paths (the scan never examines index 0). -/
def dirname (p : JStr) : JStr :=
  if p = [] then ['.']
  else
    match ((p.drop 1).reverse.dropWhile (· = '/')).dropWhile (· ≠ '/') with
    | [] => if p.head? = some '/' then ['/'] else ['.']
    | _ :: after =>
      if p.head? = some '/' ∧ after = [] then ['/', '/']
      else p.take (1 + after.length)

/-- Node `path.posix.basename` (one-argument form): the final non-slash run
of the path, ignoring trailing slashes. -/
def basename (p : JStr) : JStr :=
  ((p.reverse.dropWhile (· = '/')).takeWhile (· ≠ '/')).reverse

/-- Modelled from the spec: the per-extension record of
`LanguageFileExtensionMapper` (not under `src/`): "`fileExtensionMapping`:
{extension, exportFormat, isNotebookFormat}" keyed by the notebook's
language.  Field names follow the source accessors used by the notebook
node (`language`, `extension`, `exportFormat`, `isNotebook`). -/
structure LanguageFileExtensionMapper where
  language : JStr
  extension : JStr
  exportFormat : JStr
  isNotebook : Bool
deriving DecidableEq, Repr

/-- Modelled from the spec: the configuration and collaborator surface that
the notebook node reads but whose implementations are not under `src/` —
`ThisExtension.ActiveConnection.localSyncFolder`,
`DatabricksConnectionManager.WorkspaceSubFolder`,
`ThisExtension.ActiveConnection.allowAllSupportedFileExtensions`,
`ThisExtension.allLanguageFileExtensions` (the configurable
language-to-extension table), the static
`LanguageFileExtensionMapper.fromLanguage` / `fromExtension` lookups, the
`ThisExtension.RefreshAfterUpDownload` setting, and the local filesystem
probe `fs.existsSync`.  Theorems quantify over this record, so they hold
for every possible behaviour of the missing collaborators. -/
structure ThisExtension where
  localSyncFolder : JStr
  workspaceSubFolder : JStr
  allowAllSupportedFileExtensions : Bool
  allLanguageFileExtensions : Option JStr → List JStr
  fromLanguage : Option JStr → LanguageFileExtensionMapper
  fromExtension : JStr → LanguageFileExtensionMapper
  refreshAfterUpDownload : Bool
  existsSync : JStr → Bool

/-- The mutable state of a `DatabricksWorkspaceNotebook` node
(`path`, `_object_id`, `_onlinePathExists`, `_language`,
`_languageFileExtension`).  `languageFileExtension = none` models the
TypeScript field holding `undefined`. -/
structure DatabricksWorkspaceNotebook where
  path : JStr
  object_id : Int
  onlinePathExists : Bool
  language : Option JStr
  languageFileExtension : Option LanguageFileExtensionMapper
deriving DecidableEq, Repr

/-- Getter `localFileExtension`: the active mapper's extension, falling
back to the language's canonical mapper when the field is `undefined`. -/
def localFileExtension (env : ThisExtension) (nb : DatabricksWorkspaceNotebook) : JStr :=
  match nb.languageFileExtension with
  | none => (env.fromLanguage nb.language).extension
  | some m => m.extension

/-- Getter `localFolderPath`:
`fspath.join(localSyncFolder, WorkspaceSubFolder, fspath.dirname(this.path))`. -/
def localFolderPath (env : ThisExtension) (nb : DatabricksWorkspaceNotebook) : JStr :=
  pathJoin [env.localSyncFolder, env.workspaceSubFolder, dirname nb.path]

/-- Getter `localFilePath`:
`fspath.join(this.localFolderPath, fspath.basename(this.path) + this.localFileExtension)`. -/
def localFilePath (env : ThisExtension) (nb : DatabricksWorkspaceNotebook) : JStr :=
  pathJoin [localFolderPath env nb, basename nb.path ++ localFileExtension env nb]

/-- The candidate path probed for extension `ext` inside `localPathExists`:
`this.localFilePath.replace(this.localFileExtension, ext)` (JavaScript
first-occurrence replace). -/
def probePath (env : ThisExtension) (nb : DatabricksWorkspaceNotebook) (ext : JStr) : JStr :=
  replaceFirst (localFilePath env nb) (localFileExtension env nb) ext

/-- Rebinding of the private `_languageFileExtension` field performed when a
probe succeeds. -/
def rebindExt (nb : DatabricksWorkspaceNotebook) (m : LanguageFileExtensionMapper) :
    DatabricksWorkspaceNotebook :=
  { nb with languageFileExtension := some m }

/-- The `for (let ext of ...)` loop body of `localPathExists`: try each
extension in order; on the first filesystem hit rebind the mapper via
`LanguageFileExtensionMapper.fromExtension` and return `true`. -/
def probeLoop (env : ThisExtension) (nb : DatabricksWorkspaceNotebook) :
    List JStr → Bool × DatabricksWorkspaceNotebook
  | [] => (false, nb)
  | ext :: rest =>
    if env.existsSync (probePath env nb ext) then
      (true, rebindExt nb (env.fromExtension ext))
    else probeLoop env nb rest

/-- Getter `localPathExists`.  State-passing embedding of the impure
TypeScript getter: the returned node carries the possibly rebound
`_languageFileExtension` field. -/
def localPathExists (env : ThisExtension) (nb : DatabricksWorkspaceNotebook) :
    Bool × DatabricksWorkspaceNotebook :=
  if env.allowAllSupportedFileExtensions then
    probeLoop env nb (env.allLanguageFileExtensions nb.language)
  else (env.existsSync (localFilePath env nb), nb)

/-- The string `'CAN_SYNC'`. -/
def canSync : JStr := "CAN_SYNC".toList

/-- The string `'CAN_DOWNLOAD'`. -/
def canDownload : JStr := "CAN_DOWNLOAD".toList

/-- The string `'CAN_UPLOAD'`. -/
def canUpload : JStr := "CAN_UPLOAD".toList

/-- Getter `contextValue`: the if-chain over the two existence getters.
Each of the (up to three) conditions re-reads the impure `localPathExists`
getter, so the node state is threaded through the successive reads; JS
`&&` short-circuiting never skips the leading `localPathExists` read.
Falling through all three `if`s returns `undefined` (`none`). -/
def contextValue (env : ThisExtension) (nb0 : DatabricksWorkspaceNotebook) :
    Option JStr × DatabricksWorkspaceNotebook :=
  match localPathExists env nb0 with
  | (l1, nb1) =>
    if l1 && nb1.onlinePathExists then (some canSync, nb1)
    else
      match localPathExists env nb1 with
      | (l2, nb2) =>
        if !l2 && nb2.onlinePathExists then (some canDownload, nb2)
        else
          match localPathExists env nb2 with
          | (l3, nb3) =>
            if l3 && !nb3.onlinePathExists then (some canUpload, nb3)
            else (none, nb3)

/-- The marker `"[Online only]"`. -/
def onlineOnlyMarker : JStr := "[Online only]".toList

/-- The marker `"[Offline only]"`. -/
def offlineOnlyMarker : JStr := "[Offline only]".toList

/-- The marker `"[Synced]"`. -/
def syncedMarker : JStr := "[Synced]".toList

/-- Getter `tooltip`: `this.path + "\n"` followed by at most one marker line
per satisfied condition.  `&&` short-circuits, so `localPathExists` is read
only when the (pure) `onlinePathExists` operand does not already decide the
conjunction; the impure reads are threaded through the node state. -/
def tooltip (env : ThisExtension) (nb0 : DatabricksWorkspaceNotebook) :
    JStr × DatabricksWorkspaceNotebook :=
  let s0 := nb0.path ++ ['\n']
  -- if (this.onlinePathExists && !this.localPathExists)
  match (if nb0.onlinePathExists then
           match localPathExists env nb0 with
           | (l, nb') => (!l, nb')
         else (false, nb0)) with
  | (c1, nb1) =>
    let s1 := if c1 then s0 ++ onlineOnlyMarker ++ ['\n'] else s0
    -- if (!this.onlinePathExists && this.localPathExists)
    match (if !nb1.onlinePathExists then localPathExists env nb1 else (false, nb1)) with
    | (c2, nb2) =>
      let s2 := if c2 then s1 ++ offlineOnlyMarker ++ ['\n'] else s1
      -- if (this.onlinePathExists && this.localPathExists)
      match (if nb2.onlinePathExists then localPathExists env nb2 else (false, nb2)) with
      | (c3, nb3) =>
        (if c3 then s2 ++ syncedMarker ++ ['\n'] else s2, nb3)

/-- Observable UI / host effects emitted by the notebook actions:
`vscode.window.show*Message`, the `databricksWorkspace.refresh` command,
the API client calls, and `Helper.showDiff`. -/
inductive UIEvent
  | infoMsg (s : JStr)
  | errorMsg (s : JStr)
  | warnMsg (s : JStr)
  | refreshCmd
  | apiDownload (remotePath targetPath : JStr)
  | apiUpload (sourcePath remotePath : JStr)
  | showDiff (onlinePath : Option JStr) (localTarget : JStr)
deriving DecidableEq, Repr

/-- `"ERROR: " + error`, the message shown by the catch blocks. -/
def errAsMsg (e : JStr) : JStr := "ERROR: ".toList ++ e

/-- ``VS Code info message `Download of item ${this._path}) finished!` ``. -/
def downloadFinishedMsg (p : JStr) : JStr :=
  "Download of item ".toList ++ p ++ ") finished!".toList

/-- ``VS Code info message `Upload of item ${this.path}) finished!` ``. -/
def uploadFinishedMsg (p : JStr) : JStr :=
  "Upload of item ".toList ++ p ++ ") finished!".toList

/-- The refusal message shown by `compare()` for notebook export formats. -/
def diffNotSupportedMsg : JStr :=
  ("DIFF is currently not supported when using notebooks. " ++
   "You can change the export formats to work around this issue!").toList

/-- The message shown by the base class `getChildren`. -/
def notImplementedMsg : JStr :=
  "getChildren is not implemented! Please overwrite in derived class!".toList

/-- `async download(asTempFile)`.  The whole body runs inside `try/catch`.
`tempFile` is the outcome of `Helper.openTempFile` (only consulted when
`asTempFile` is true; its result gets `this.localFileExtension` appended);
`api` is the outcome of the awaited
`DatabricksApiService.downloadWorkspaceItem` as a function of the target
local path.  A caught error is shown as `ERROR: ...` and the method falls
off the end, returning `undefined` (`none`); on success the target path is
returned, after an optional fire-and-forget refresh (only when not a temp
file). -/
def download (env : ThisExtension) (nb : DatabricksWorkspaceNotebook) (asTempFile : Bool)
    (tempFile : Except JStr JStr) (api : JStr → Except JStr Unit) :
    Option JStr × List UIEvent :=
  match (if asTempFile then tempFile.map (fun t => t ++ localFileExtension env nb)
         else Except.ok (localFilePath env nb)) with
  | Except.error e => (none, [UIEvent.errorMsg (errAsMsg e)])
  | Except.ok localPath =>
    match api localPath with
    | Except.error e =>
      (none, [UIEvent.apiDownload nb.path localPath, UIEvent.errorMsg (errAsMsg e)])
    | Except.ok _ =>
      (some localPath,
        [UIEvent.apiDownload nb.path localPath, UIEvent.infoMsg (downloadFinishedMsg nb.path)] ++
        (if env.refreshAfterUpDownload && !asTempFile then [UIEvent.refreshCmd] else []))

/-- The possible outcomes of the `DatabricksApiService.uploadWorkspaceItem`
call made by `upload()`: normal resolution, a synchronous throw (raised
while the expression itself is evaluated), or an asynchronous rejection of
the returned promise. -/
inductive UploadOutcome
  | resolved
  | syncThrow (e : JStr)
  | rejected (e : JStr)
deriving DecidableEq, Repr

/-- `async upload()`.  The API call is *not* awaited: a synchronous throw is
caught by the surrounding `try/catch`, but an asynchronous rejection of the
un-awaited promise is not observed by this method at all — the success
message (and optional refresh) still run, and the rejection escapes as an
unhandled promise rejection (second component `some e`). -/
def upload (env : ThisExtension) (nb : DatabricksWorkspaceNotebook)
    (outcome : UploadOutcome) : List UIEvent × Option JStr :=
  match outcome with
  | UploadOutcome.syncThrow e => ([UIEvent.errorMsg (errAsMsg e)], none)
  | UploadOutcome.resolved =>
    ([UIEvent.apiUpload (localFilePath env nb) nb.path,
      UIEvent.infoMsg (uploadFinishedMsg nb.path)] ++
     (if env.refreshAfterUpDownload then [UIEvent.refreshCmd] else []), none)
  | UploadOutcome.rejected e =>
    ([UIEvent.apiUpload (localFilePath env nb) nb.path,
      UIEvent.infoMsg (uploadFinishedMsg nb.path)] ++
     (if env.refreshAfterUpDownload then [UIEvent.refreshCmd] else []), some e)

/-- `async compare()`.  Reads `this._languageFileExtension.isNotebook`
outside any `try` (`none` result models the TypeError when the field is
`undefined`); refuses notebook formats with an error message and `return`s,
otherwise awaits `download(true)` and hands its (possibly `undefined`)
result to `Helper.showDiff` together with `this.localFilePath`. -/
def compareNotebook (env : ThisExtension) (nb : DatabricksWorkspaceNotebook)
    (tempFile : Except JStr JStr) (api : JStr → Except JStr Unit) :
    Option (List UIEvent) :=
  match nb.languageFileExtension with
  | none => none
  | some m =>
    if m.isNotebook then some [UIEvent.errorMsg diffNotSupportedMsg]
    else
      some ((download env nb true tempFile api).2 ++
        [UIEvent.showDiff (download env nb true tempFile api).1 (localFilePath env nb)])

/-- The generic workspace tree item of
`src/vscode/treeviews/workspaces/DatabricksWorkspaceTreeItem.ts` (identity
fields only; presentation fields are derived). -/
structure DatabricksWorkspaceTreeItem where
  path : JStr
  object_type : JStr
  object_id : Int
deriving DecidableEq, Repr

/-- Base-class `getChildren()`: shows the "not implemented" error message
and returns `undefined` (`none`) — it neither throws nor produces a child
list. -/
def getChildren (_t : DatabricksWorkspaceTreeItem) :
    List UIEvent × Option (List DatabricksWorkspaceTreeItem) :=
  ([UIEvent.errorMsg notImplementedMsg], none)

/-- Spec-side definition (follows the spec's words, for comparison with the
code): the claimed `contextValue` table over the pair
`(localPathExists, onlinePathExists)`:
(T,T)→CAN_SYNC, (F,T)→CAN_DOWNLOAD, (T,F)→CAN_UPLOAD, (F,F)→undefined. -/
def specContextValueTable (localE onlineE : Bool) : Option JStr :=
  if localE && onlineE then some canSync
  else if !localE && onlineE then some canDownload
  else if localE && !onlineE then some canUpload
  else none

/-- Spec-side formalisation of claim C6 for one node: the tooltip contains
exactly the marker selected by the pair `(localPathExists,
onlinePathExists)` — and none of the three markers when both are false. -/
def tooltipMarkerClaim (env : ThisExtension) (nb : DatabricksWorkspaceNotebook) : Prop :=
  let t := (tooltip env nb).1
  let l := (localPathExists env nb).1
  let o := nb.onlinePathExists
  (o = true ∧ l = false →
    occurs onlineOnlyMarker t = true ∧ occurs offlineOnlyMarker t = false ∧
      occurs syncedMarker t = false) ∧
  (o = false ∧ l = true →
    occurs offlineOnlyMarker t = true ∧ occurs onlineOnlyMarker t = false ∧
      occurs syncedMarker t = false) ∧
  (o = true ∧ l = true →
    occurs syncedMarker t = true ∧ occurs onlineOnlyMarker t = false ∧
      occurs offlineOnlyMarker t = false) ∧
  (o = false ∧ l = false →
    occurs onlineOnlyMarker t = false ∧ occurs offlineOnlyMarker t = false ∧
      occurs syncedMarker t = false)

/-- A sample extension mapper for extension `e` (SOURCE export format,
not a packaged notebook format). -/
def sampleMapper (e : JStr) : LanguageFileExtensionMapper :=
  { language := "PYTHON".toList, extension := e,
    exportFormat := "SOURCE".toList, isNotebook := false }

/-- Counterexample environment for claim C1: the sync folder `"/s.a"`
contains the canonical extension `".a"` as a substring, the accepted
extensions are `[".b", ".c"]`, and exactly the file `"/s.c/w/x.a"` exists
locally. -/
def cexEnvC1 : ThisExtension :=
  { localSyncFolder := "/s.a".toList
    workspaceSubFolder := "w".toList
    allowAllSupportedFileExtensions := true
    allLanguageFileExtensions := fun _ => [".b".toList, ".c".toList]
    fromLanguage := fun _ => sampleMapper ".a".toList
    fromExtension := fun e => sampleMapper e
    refreshAfterUpDownload := false
    existsSync := fun p => p = "/s.c/w/x.a".toList }

/-- Counterexample node for claim C1: a local-only notebook `"/x"` whose
active extension is the canonical `".a"`. -/
def cexNbC1 : DatabricksWorkspaceNotebook :=
  { path := "/x".toList, object_id := 1, onlinePathExists := false,
    language := some "PYTHON".toList,
    languageFileExtension := some (sampleMapper ".a".toList) }

/-- A benign environment: probing disabled, empty filesystem. -/
def plainEnv : ThisExtension :=
  { localSyncFolder := "/root".toList
    workspaceSubFolder := "Workspace".toList
    allowAllSupportedFileExtensions := false
    allLanguageFileExtensions := fun _ => []
    fromLanguage := fun _ => sampleMapper ".py".toList
    fromExtension := fun e => sampleMapper e
    refreshAfterUpDownload := false
    existsSync := fun _ => false }

/-- An online notebook node `"/Users/me/nb"` with the canonical `".py"`
mapper bound. -/
def plainNb : DatabricksWorkspaceNotebook :=
  { path := "/Users/me/nb".toList, object_id := 7, onlinePathExists := true,
    language := some "PYTHON".toList,
    languageFileExtension := some (sampleMapper ".py".toList) }

/-- Witness environment for claim C2: probing enabled, accepted extensions
`[".py", ".scala"]`, and only the `".scala"` variant of the file exists. -/
def probeEnv : ThisExtension :=
  { plainEnv with
    allowAllSupportedFileExtensions := true
    allLanguageFileExtensions := fun _ => [".py".toList, ".scala".toList]
    existsSync := fun p => p = "/root/Workspace/Users/me/nb.scala".toList }

/-- Counterexample environment for claims C6/C7: probing disabled, empty
filesystem, short folder names. -/
def cexEnvC7 : ThisExtension :=
  { plainEnv with
    localSyncFolder := "r".toList
    workspaceSubFolder := "w".toList }

/-- Counterexample node for claim C7: remote path `"a/"` ends in a path
separator, so its basename/dirname decomposition loses the trailing
slash. -/
def cexNbC7 : DatabricksWorkspaceNotebook :=
  { plainNb with path := "a/".toList, onlinePathExists := false }

/-- Counterexample node for claim C6: the remote path itself contains the
`"[Synced]"` marker, and neither a local nor an online copy exists. -/
def cexNbC6 : DatabricksWorkspaceNotebook :=
  { plainNb with path := "[Synced]".toList, onlinePathExists := false }

/-- API-call behaviour that always succeeds. -/
def apiOk : JStr → Except JStr Unit := fun _ => Except.ok ()

/-- API-call behaviour that always fails with `"boom"`. -/
def apiBoom : JStr → Except JStr Unit := fun _ => Except.error "boom".toList

/-- A notebook node whose active export format is a packaged notebook
format (`isNotebook = true`). -/
def notebookFmtNb : DatabricksWorkspaceNotebook :=
  { plainNb with
    languageFileExtension :=
      some { sampleMapper ".dbc".toList with isNotebook := true } }

theorem probeLoop_eq_find (env : ThisExtension) (nb : DatabricksWorkspaceNotebook) :
    ∀ exts : List JStr,
      probeLoop env nb exts =
        match exts.find? (fun e => env.existsSync (probePath env nb e)) with
        | some e => (true, rebindExt nb (env.fromExtension e))
        | none => (false, nb) := by
  intro exts
  induction exts with
  | nil => rfl
  | cons ext rest ih =>
    by_cases h : env.existsSync (probePath env nb ext) = true
    · rw [List.find?_cons_of_pos (p := fun e => env.existsSync (probePath env nb e)) rest h]
      simp [probeLoop, h]
    · rw [List.find?_cons_of_neg (p := fun e => env.existsSync (probePath env nb e)) rest
        (by simpa using h)]
      rw [← ih]
      simp [probeLoop, h]

theorem probeLoop_online (env : ThisExtension) (nb : DatabricksWorkspaceNotebook) :
    ∀ exts : List JStr,
      (probeLoop env nb exts).2.onlinePathExists = nb.onlinePathExists := by
  intro exts
  rw [probeLoop_eq_find]
  cases (exts.find? (fun e => env.existsSync (probePath env nb e))) <;> rfl

theorem localPathExists_online (env : ThisExtension) (nb : DatabricksWorkspaceNotebook) :
    (localPathExists env nb).2.onlinePathExists = nb.onlinePathExists := by
  unfold localPathExists
  by_cases h : env.allowAllSupportedFileExtensions = true
  · simp only [h, if_true]
    exact probeLoop_online env nb _
  · simp [h]

/-- C2: with the `allowAllSupportedFileExtensions` policy enabled, reading
`localPathExists` probes the recognized extensions for the node's language
in order; the first extension whose probed path exists locally wins — the
getter returns `true` and, as a side effect, rebinds the node's active
file-extension mapping to the mapper of the matching extension — and if no
candidate matches it returns `false`. -/
theorem claim_C2_localPathExists_probing (env : ThisExtension)
    (nb : DatabricksWorkspaceNotebook)
    (h : env.allowAllSupportedFileExtensions = true) :
    localPathExists env nb =
      match (env.allLanguageFileExtensions nb.language).find?
          (fun e => env.existsSync (probePath env nb e)) with
      | some e => (true, rebindExt nb (env.fromExtension e))
      | none => (false, nb) := by
  unfold localPathExists
  rw [h]
  simpa using probeLoop_eq_find env nb _

/-- Witness for C2: with accepted extensions `[".py", ".scala"]` and only
the `".scala"` file on disk, `localPathExists` returns `true` and rebinds
the mapping to the `".scala"` mapper. -/
theorem claim_C2_witness :
    localPathExists probeEnv plainNb =
      (true, rebindExt plainNb (sampleMapper ".scala".toList)) := by
  rw [claim_C2_localPathExists_probing probeEnv plainNb rfl]
  decide

/-- C9: with the `allowAllSupportedFileExtensions` policy disabled, reading
`localPathExists` is exactly the filesystem existence check on the
canonical `localFilePath` and leaves the node state (in particular the
active file-extension mapping) unchanged. -/
theorem claim_C9_localPathExists_plain (env : ThisExtension)
    (nb : DatabricksWorkspaceNotebook)
    (h : env.allowAllSupportedFileExtensions = false) :
    localPathExists env nb = (env.existsSync (localFilePath env nb), nb) := by
  unfold localPathExists
  rw [h]
  simp

/-- Witness for C9: on the empty filesystem the plain check returns `false`
and the node is returned unchanged. -/
theorem claim_C9_witness : localPathExists plainEnv plainNb = (false, plainNb) := by
  rw [claim_C9_localPathExists_plain plainEnv plainNb rfl]
  rfl

/-- C8: the base-class `getChildren()` shows the "not implemented" error
message and returns `undefined` — it does not throw and produces no child
list. -/
theorem claim_C8_getChildren_not_implemented (t : DatabricksWorkspaceTreeItem) :
    getChildren t = ([UIEvent.errorMsg notImplementedMsg], none) := rfl

/-- C3 (code bug): `upload()` does not `await` the API call, so an
asynchronous failure of `uploadWorkspaceItem` is never caught by the
method's `try/catch`: no error message is shown, the success message is
shown anyway, and the rejection escapes the method as an unhandled promise
rejection. -/
theorem claim_C3_upload_rejection_escapes (env : ThisExtension)
    (nb : DatabricksWorkspaceNotebook) (e : JStr) :
    (upload env nb (UploadOutcome.rejected e)).2 = some e ∧
    UIEvent.infoMsg (uploadFinishedMsg nb.path) ∈
      (upload env nb (UploadOutcome.rejected e)).1 ∧
    ∀ s, UIEvent.errorMsg s ∉ (upload env nb (UploadOutcome.rejected e)).1 := by
  refine ⟨rfl, ?_, ?_⟩ <;> cases h : env.refreshAfterUpDownload <;> simp [upload, h]

/-- C4: `download(asTempFile)` never re-throws — when the awaited remote
fetch fails, the error is reported as an `ERROR: ...` message and the
returned value is `undefined`; when it succeeds, the returned value is the
defined target path (the canonical local path, or the fresh temp path with
the local file extension appended when `asTempFile` is true). -/
theorem claim_C4_download_result (env : ThisExtension)
    (nb : DatabricksWorkspaceNotebook) (asTempFile : Bool) (t : JStr)
    (api : JStr → Except JStr Unit) :
    (∀ e,
      api (if asTempFile then t ++ localFileExtension env nb
           else localFilePath env nb) = Except.error e →
      download env nb asTempFile (Except.ok t) api =
        (none,
         [UIEvent.apiDownload nb.path
            (if asTempFile then t ++ localFileExtension env nb
             else localFilePath env nb),
          UIEvent.errorMsg (errAsMsg e)])) ∧
    (api (if asTempFile then t ++ localFileExtension env nb
          else localFilePath env nb) = Except.ok () →
      (download env nb asTempFile (Except.ok t) api).1 =
        some (if asTempFile then t ++ localFileExtension env nb
              else localFilePath env nb)) := by
  constructor
  · intro e he
    cases asTempFile <;> simp_all [download, Except.map]
  · intro hok
    cases asTempFile <;> simp_all [download, Except.map]

/-- Witness for C4: a failing fetch yields `undefined` plus the error
message; a succeeding fetch yields the canonical local path. -/
theorem claim_C4_witness :
    download plainEnv plainNb false (Except.ok []) apiBoom =
      (none, [UIEvent.apiDownload plainNb.path (localFilePath plainEnv plainNb),
              UIEvent.errorMsg (errAsMsg "boom".toList)]) ∧
    (download plainEnv plainNb false (Except.ok []) apiOk).1 =
      some (localFilePath plainEnv plainNb) :=
  ⟨(claim_C4_download_result plainEnv plainNb false [] apiBoom).1 "boom".toList rfl,
   (claim_C4_download_result plainEnv plainNb false [] apiOk).2 rfl⟩

/-- C5: `compare()` refuses with a user-visible error message — and without
attempting any download — when the active export format is a packaged
notebook format, and otherwise downloads a temporary online copy and hands
it (together with the canonical local file path) to the host diff view. -/
theorem claim_C5_compare (env : ThisExtension) (nb : DatabricksWorkspaceNotebook)
    (tempFile : Except JStr JStr) (api : JStr → Except JStr Unit)
    (m : LanguageFileExtensionMapper)
    (hm : nb.languageFileExtension = some m) :
    (m.isNotebook = true →
      compareNotebook env nb tempFile api = some [UIEvent.errorMsg diffNotSupportedMsg]) ∧
    (m.isNotebook = false →
      compareNotebook env nb tempFile api =
        some ((download env nb true tempFile api).2 ++
          [UIEvent.showDiff (download env nb true tempFile api).1
            (localFilePath env nb)])) := by
  constructor <;> intro h <;> simp [compareNotebook, hm, h]

/-- Witness for C5: a notebook-format node is refused; a source-format node
produces the download events followed by the diff invocation. -/
theorem claim_C5_witness :
    compareNotebook plainEnv notebookFmtNb (Except.ok "/tmp/nb-ONLINE".toList) apiOk =
      some [UIEvent.errorMsg diffNotSupportedMsg] ∧
    compareNotebook plainEnv plainNb (Except.ok "/tmp/nb-ONLINE".toList) apiOk =
      some ((download plainEnv plainNb true (Except.ok "/tmp/nb-ONLINE".toList) apiOk).2 ++
        [UIEvent.showDiff
          (download plainEnv plainNb true (Except.ok "/tmp/nb-ONLINE".toList) apiOk).1
          (localFilePath plainEnv plainNb)]) :=
  ⟨(claim_C5_compare plainEnv notebookFmtNb (Except.ok "/tmp/nb-ONLINE".toList) apiOk _ rfl).1 rfl,
   (claim_C5_compare plainEnv plainNb (Except.ok "/tmp/nb-ONLINE".toList) apiOk _ rfl).2 rfl⟩

/-- C1 (counterexample to the claim as stated): with probing enabled, a
sync folder that contains the canonical extension as a substring, and the
accepted-extension list `[".b", ".c"]`, the first `localPathExists` read
returns `true` (rebinding the mapper), but the rebound state makes the
later reads inside the `contextValue` if-chain return `false`, so
`contextValue` is `undefined` even though the table demands `CAN_UPLOAD`
for the pair `(true, false)`. -/
theorem claim_C1_counterexample :
    ¬ ((contextValue cexEnvC1 cexNbC1).1 =
        specContextValueTable (localPathExists cexEnvC1 cexNbC1).1
          cexNbC1.onlinePathExists) := by
  decide

/-- C1 (amended): provided the repeated reads of the impure
`localPathExists` getter performed by the `contextValue` if-chain agree
with the first read (which always holds when the probing policy is
disabled), `contextValue` is exactly the table entry for the pair
`(localPathExists, onlinePathExists)`: (T,T)→CAN_SYNC, (F,T)→CAN_DOWNLOAD,
(T,F)→CAN_UPLOAD, (F,F)→undefined. -/
theorem claim_C1_contextValue_table (env : ThisExtension)
    (nb : DatabricksWorkspaceNotebook)
    (h2 : (localPathExists env (localPathExists env nb).2).1 =
          (localPathExists env nb).1)
    (h3 : (localPathExists env (localPathExists env (localPathExists env nb).2).2).1 =
          (localPathExists env nb).1) :
    (contextValue env nb).1 =
      specContextValueTable (localPathExists env nb).1 nb.onlinePathExists := by
  rcases hR1 : localPathExists env nb with ⟨l1, nb1⟩
  rcases hR2 : localPathExists env nb1 with ⟨l2, nb2⟩
  rcases hR3 : localPathExists env nb2 with ⟨l3, nb3⟩
  have o1 : nb1.onlinePathExists = nb.onlinePathExists := by
    have h := localPathExists_online env nb
    rw [hR1] at h
    exact h
  have o2 : nb2.onlinePathExists = nb.onlinePathExists := by
    have h := localPathExists_online env nb1
    rw [hR2] at h
    rw [h, o1]
  have o3 : nb3.onlinePathExists = nb.onlinePathExists := by
    have h := localPathExists_online env nb2
    rw [hR3] at h
    rw [h, o2]
  rw [hR1] at h2 h3
  simp only at h2 h3
  rw [hR2] at h2 h3
  simp only at h2 h3
  rw [hR3] at h3
  simp only at h3
  unfold contextValue
  rw [hR1]
  simp only
  rw [hR2]
  simp only
  rw [hR3]
  simp only
  rw [h2, h3]
  cases l1 <;> cases hno : nb.onlinePathExists <;>
    simp [specContextValueTable, o1, o2, o3, hno]

/-- Witness for the amended C1: a stable configuration (probing disabled,
empty filesystem) with an online node yields `CAN_DOWNLOAD` as the table
demands. -/
theorem claim_C1_witness :
    (contextValue plainEnv plainNb).1 =
      specContextValueTable (localPathExists plainEnv plainNb).1
        plainNb.onlinePathExists :=
  claim_C1_contextValue_table plainEnv plainNb (by decide) (by decide)


theorem occ_append_right (pat a b : JStr) (h : occurs pat b = true) :
    occurs pat (a ++ b) = true := by
  induction a with
  | nil => simpa using h
  | cons x xs ih => simp [occurs, ih]

theorem isPfx_split (c : Char) (pat : JStr) :
    ∀ a b : JStr, c ∉ pat → isPfx pat (a ++ c :: b) = true → isPfx pat a = true := by
  induction pat with
  | nil => intro a b _ _; rfl
  | cons p ps ih =>
    intro a b hc h
    cases a with
    | nil =>
      exfalso
      simp [isPfx] at h
      exact hc (by simp [h.1])
    | cons x xs =>
      rw [List.cons_append] at h
      simp [isPfx] at h ⊢
      exact ⟨h.1, ih xs b (fun hm => hc (List.mem_cons_of_mem _ hm)) h.2⟩

theorem occurs_split (pat : JStr) (hp : pat ≠ []) (c : Char) (hc : c ∉ pat) :
    ∀ a b : JStr, occurs pat (a ++ c :: b) = true →
      occurs pat a = true ∨ occurs pat b = true := by
  intro a
  induction a with
  | nil =>
    intro b h
    simp [occurs] at h
    rcases h with h | h
    · exfalso
      cases pat with
      | nil => exact hp rfl
      | cons p ps =>
        simp [isPfx] at h
        exact hc (by simp [h.1])
    · exact Or.inr h
  | cons x xs ih =>
    intro b h
    rw [List.cons_append] at h
    simp [occurs] at h
    rcases h with h | h
    · have hx := isPfx_split c pat (x :: xs) b hc (by simpa [isPfx] using h)
      exact Or.inl (by simp [occurs, hx])
    · rcases ih b (by simpa [occurs] using h) with h' | h'
      · exact Or.inl (by simp [occurs, h'])
      · exact Or.inr h'

theorem occurs_chunk_false (pat path chunk : JStr) (hp : pat ≠ [])
    (hnl : '\n' ∉ pat) (hpath : occurs pat path = false)
    (hchunk : occurs pat chunk = false) :
    occurs pat (path ++ '\n' :: chunk) = false := by
  cases h : occurs pat (path ++ '\n' :: chunk) with
  | false => rfl
  | true =>
    rcases occurs_split pat hp '\n' hnl path chunk h with h' | h' <;> simp_all

theorem occurs_chunk_true (pat path chunk : JStr) (h : occurs pat chunk = true) :
    occurs pat (path ++ '\n' :: chunk) = true :=
  occ_append_right pat path ('\n' :: chunk) (by simp [occurs, h])

theorem tooltip_eval_off (env : ThisExtension) (nb : DatabricksWorkspaceNotebook)
    (hO : nb.onlinePathExists = false) :
    (tooltip env nb).1 =
      if (localPathExists env nb).1 then
        nb.path ++ '\n' :: (offlineOnlyMarker ++ ['\n'])
      else nb.path ++ '\n' :: [] := by
  rcases hR : localPathExists env nb with ⟨l, nb'⟩
  have honline : nb'.onlinePathExists = false := by
    have h := localPathExists_online env nb
    rw [hR] at h
    rw [h, hO]
  simp only [tooltip, hO, hR, honline, Bool.false_eq_true, Bool.not_false,
    Bool.not_true, if_false, if_true]
  cases l <;> simp [List.append_assoc]

theorem tooltip_eval_on (env : ThisExtension) (nb : DatabricksWorkspaceNotebook)
    (hO : nb.onlinePathExists = true)
    (hst : (localPathExists env (localPathExists env nb).2).1 =
           (localPathExists env nb).1) :
    (tooltip env nb).1 =
      if (localPathExists env nb).1 then
        nb.path ++ '\n' :: (syncedMarker ++ ['\n'])
      else nb.path ++ '\n' :: (onlineOnlyMarker ++ ['\n']) := by
  rcases hR : localPathExists env nb with ⟨l, nb'⟩
  rcases hR3 : localPathExists env nb' with ⟨l3, nb3⟩
  have honline : nb'.onlinePathExists = true := by
    have h := localPathExists_online env nb
    rw [hR] at h
    rw [h, hO]
  rw [hR] at hst
  simp only at hst
  rw [hR3] at hst
  simp only at hst
  simp only [tooltip, hO, hR, hR3, honline, hst, Bool.false_eq_true, Bool.not_false,
    Bool.not_true, if_false, if_true]
  cases l <;> simp [List.append_assoc]

/-- C6 (amended): provided the node's path contains none of the three
marker strings and the repeated reads of the impure `localPathExists`
getter inside the tooltip computation agree with the first read, the
tooltip contains exactly one of `"[Online only]"`, `"[Offline only]"`,
`"[Synced]"` as selected by the pair `(localPathExists, onlinePathExists)`
— `"[Online only]"` iff online-only, `"[Offline only]"` iff local-only,
`"[Synced]"` iff both — and none of the three when both are false. -/
theorem claim_C6_tooltip_markers (env : ThisExtension)
    (nb : DatabricksWorkspaceNotebook)
    (hp1 : occurs onlineOnlyMarker nb.path = false)
    (hp2 : occurs offlineOnlyMarker nb.path = false)
    (hp3 : occurs syncedMarker nb.path = false)
    (hst : nb.onlinePathExists = true →
      (localPathExists env (localPathExists env nb).2).1 =
        (localPathExists env nb).1) :
    tooltipMarkerClaim env nb := by
  simp only [tooltipMarkerClaim]
  cases hO : nb.onlinePathExists with
  | false =>
    rw [tooltip_eval_off env nb hO]
    cases hl : (localPathExists env nb).1 with
    | false =>
      simp only [Bool.false_eq_true, if_false]
      refine ⟨fun h => absurd h.1 (by simp), fun h => absurd h.2 (by simp),
        fun h => absurd h.1 (by simp), fun _ => ⟨?_, ?_, ?_⟩⟩
      · exact occurs_chunk_false _ _ _ (by decide) (by decide) hp1 (by decide)
      · exact occurs_chunk_false _ _ _ (by decide) (by decide) hp2 (by decide)
      · exact occurs_chunk_false _ _ _ (by decide) (by decide) hp3 (by decide)
    | true =>
      simp only [if_true]
      refine ⟨fun h => absurd h.1 (by simp), fun _ => ⟨?_, ?_, ?_⟩,
        fun h => absurd h.1 (by simp), fun h => absurd h.2 (by simp)⟩
      · exact occurs_chunk_true _ _ _ (by decide)
      · exact occurs_chunk_false _ _ _ (by decide) (by decide) hp1 (by decide)
      · exact occurs_chunk_false _ _ _ (by decide) (by decide) hp3 (by decide)
  | true =>
    rw [tooltip_eval_on env nb hO (hst hO)]
    cases hl : (localPathExists env nb).1 with
    | false =>
      simp only [Bool.false_eq_true, if_false]
      refine ⟨fun _ => ⟨?_, ?_, ?_⟩, fun h => absurd h.1 (by simp),
        fun h => absurd h.2 (by simp), fun h => absurd h.1 (by simp)⟩
      · exact occurs_chunk_true _ _ _ (by decide)
      · exact occurs_chunk_false _ _ _ (by decide) (by decide) hp2 (by decide)
      · exact occurs_chunk_false _ _ _ (by decide) (by decide) hp3 (by decide)
    | true =>
      simp only [if_true]
      refine ⟨fun h => absurd h.2 (by simp), fun h => absurd h.1 (by simp),
        fun _ => ⟨?_, ?_, ?_⟩, fun h => absurd h.1 (by simp)⟩
      · exact occurs_chunk_true _ _ _ (by decide)
      · exact occurs_chunk_false _ _ _ (by decide) (by decide) hp1 (by decide)
      · exact occurs_chunk_false _ _ _ (by decide) (by decide) hp2 (by decide)

/-- C6 (counterexample to the claim as stated): for a node whose remote
path itself contains the `"[Synced]"` marker and which exists neither
locally nor online, the tooltip (path plus newline) still contains that
marker, contradicting the "no marker when both flags are false" case. -/
theorem claim_C6_counterexample : ¬ tooltipMarkerClaim cexEnvC7 cexNbC6 := by
  unfold tooltipMarkerClaim
  decide

/-- Witness for the amended C6: an online-only node with a marker-free path
satisfies the marker table. -/
theorem claim_C6_witness : tooltipMarkerClaim plainEnv plainNb :=
  claim_C6_tooltip_markers plainEnv plainNb (by decide) (by decide) (by decide)
    (fun _ => by decide)

theorem isPfx_self (l : JStr) : isPfx l l = true := by
  induction l with
  | nil => rfl
  | cons c t ih => simp [isPfx, ih]

theorem replaceFirst_at_end (pat rep : JStr) :
    ∀ Q : JStr,
      (∀ i, i < Q.length → isPfx pat ((Q ++ pat).drop i) = false) →
      replaceFirst (Q ++ pat) pat rep = Q ++ rep := by
  intro Q
  induction Q with
  | nil =>
    intro _
    cases pat with
    | nil => simp [replaceFirst, isPfx]
    | cons p ps =>
      simp [replaceFirst, isPfx_self]
  | cons c Q' ih =>
    intro hpre
    have h0 : isPfx pat (c :: (Q' ++ pat)) = false := by
      have h := hpre 0 (by simp)
      simpa using h
    rw [List.cons_append]
    simp only [replaceFirst, h0, Bool.false_eq_true, if_false]
    rw [ih (fun i hi => by
      have h := hpre (i + 1) (by simpa using Nat.succ_lt_succ hi)
      simpa using h)]
    rfl

/-- C10: each probed candidate path is computed as
`localFilePath.replace(localFileExtension, ext)` with JavaScript
first-occurrence semantics (the definition of `probePath`), and under the
precondition that the canonical extension does not occur in
`localFilePath` before its trailing position, the probed path for every
candidate extension is the canonical directory-and-basename part with the
candidate extension substituted for the canonical one. -/
theorem claim_C10_probePath (env : ThisExtension) (nb : DatabricksWorkspaceNotebook)
    (ext Q : JStr)
    (hQ : localFilePath env nb = Q ++ localFileExtension env nb)
    (hpre : ∀ i, i < Q.length →
      isPfx (localFileExtension env nb) ((localFilePath env nb).drop i) = false) :
    probePath env nb ext = Q ++ ext := by
  unfold probePath
  rw [hQ] at hpre ⊢
  exact replaceFirst_at_end (localFileExtension env nb) ext Q hpre

/-- Witness for C10: for the canonical file `/root/Workspace/Users/me/nb.py`
the probe for `".scala"` is `/root/Workspace/Users/me/nb.scala`. -/
theorem claim_C10_witness :
    probePath plainEnv plainNb ".scala".toList =
      "/root/Workspace/Users/me/nb".toList ++ ".scala".toList :=
  claim_C10_probePath plainEnv plainNb ".scala".toList
    "/root/Workspace/Users/me/nb".toList (by decide) (by decide)

theorem splitSlash_ne_nil (l : JStr) : splitSlash l ≠ [] := by
  cases l with
  | nil => simp [splitSlash]
  | cons c t =>
    by_cases h : c = '/'
    · simp [splitSlash, h]
    · simp only [splitSlash, h, if_false]
      cases hs : splitSlash t <;> simp [consHead]

theorem consHead_append (c : Char) (l m : List JStr) (h : l ≠ []) :
    consHead c (l ++ m) = consHead c l ++ m := by
  cases l with
  | nil => exact absurd rfl h
  | cons a as => rfl

theorem splitSlash_append_cons (a b : JStr) :
    splitSlash (a ++ '/' :: b) = splitSlash a ++ splitSlash b := by
  induction a with
  | nil => simp [splitSlash]
  | cons x xs ih =>
    by_cases h : x = '/'
    · simp [splitSlash, h, ih]
    · rw [List.cons_append]
      simp only [splitSlash, h, if_false, ih]
      rw [consHead_append x _ _ (splitSlash_ne_nil xs)]

theorem splitSlash_single (a : JStr) (h : '/' ∉ a) : splitSlash a = [a] := by
  induction a with
  | nil => rfl
  | cons x xs ih =>
    have hx : ¬ x = '/' := fun he => h (by simp [he])
    simp only [splitSlash, hx, if_false]
    rw [ih (fun hm => h (List.mem_cons_of_mem _ hm))]
    rfl

theorem splitSlash_sf (l : JStr) : ∀ sg ∈ splitSlash l, '/' ∉ sg := by
  induction l with
  | nil => simp [splitSlash]
  | cons x xs ih =>
    by_cases h : x = '/'
    · simp only [splitSlash, h, if_true]
      intro sg hsg
      rcases List.mem_cons.1 hsg with h' | h'
      · simp [h']
      · exact ih sg h'
    · simp only [splitSlash, h, if_false]
      intro sg hsg
      cases hs : splitSlash xs with
      | nil => exact absurd hs (splitSlash_ne_nil xs)
      | cons a as =>
        rw [hs] at hsg
        simp only [consHead] at hsg
        rcases List.mem_cons.1 hsg with h' | h'
        · subst h'
          intro hm
          rcases List.mem_cons.1 hm with h'' | h''
          · exact h h''.symm
          · exact ih a (by rw [hs]; exact List.mem_cons_self a as) h''
        · exact ih sg (by rw [hs]; exact List.mem_cons_of_mem _ h')

theorem joinSegs_cons₂ (a b : JStr) (r : List JStr) :
    joinSegs (a :: b :: r) = a ++ '/' :: joinSegs (b :: r) := rfl

theorem splitSlash_joinSegs :
    ∀ ss : List JStr, ss ≠ [] → (∀ sg ∈ ss, '/' ∉ sg) →
      splitSlash (joinSegs ss) = ss
  | [], h, _ => absurd rfl h
  | [a], _, hsf => by
    simp only [joinSegs]
    exact splitSlash_single a (hsf a (by simp))
  | a :: b :: r, _, hsf => by
    rw [joinSegs_cons₂, splitSlash_append_cons,
      splitSlash_single a (hsf a (by simp)),
      splitSlash_joinSegs (b :: r) (by simp)
        (fun sg hsg => hsf sg (List.mem_cons_of_mem _ hsg))]
    rfl

theorem foldl_normStep_no_dots (abs : Bool) :
    ∀ (segs : List JStr), (∀ sg ∈ segs, sg ≠ ['.'] ∧ sg ≠ ['.', '.']) →
      ∀ acc, segs.foldl (normStep abs) acc =
        (segs.filter (· ≠ [])).reverse ++ acc := by
  intro segs
  induction segs with
  | nil => intro _ acc; rfl
  | cons sg rest ih =>
    intro hd acc
    have hsg := hd sg (by simp)
    rw [List.foldl_cons, List.filter_cons]
    by_cases h0 : sg = []
    · rw [if_neg (by simp [h0])]
      have hstep : normStep abs acc sg = acc := by
        unfold normStep
        rw [if_pos (Or.inl h0)]
      rw [hstep, ih (fun s hs => hd s (List.mem_cons_of_mem _ hs)) acc]
    · rw [if_pos (by simp [h0])]
      have hstep : normStep abs acc sg = sg :: acc := by
        unfold normStep
        rw [if_neg (by simp [h0, hsg.1]), if_neg hsg.2]
      rw [hstep, ih (fun s hs => hd s (List.mem_cons_of_mem _ hs)) (sg :: acc)]
      simp

theorem normSegs_no_dots (abs : Bool) (segs : List JStr)
    (hd : ∀ sg ∈ segs, sg ≠ ['.'] ∧ sg ≠ ['.', '.']) :
    normSegs abs segs = segs.filter (· ≠ []) := by
  unfold normSegs
  rw [foldl_normStep_no_dots abs segs hd []]
  simp

theorem filter_ne_eq_self (ss : List JStr) (h : ∀ sg ∈ ss, sg ≠ []) :
    ss.filter (· ≠ []) = ss := by
  induction ss with
  | nil => rfl
  | cons a as ih =>
    rw [List.filter_cons, if_pos (by simpa using h a (by simp))]
    rw [ih (fun s hs => h s (List.mem_cons_of_mem _ hs))]

theorem joinSegs_ne_nil :
    ∀ ss : List JStr, ss ≠ [] → (∀ sg ∈ ss, sg ≠ []) → joinSegs ss ≠ []
  | [], h, _ => absurd rfl h
  | [a], _, hne => by simpa [joinSegs] using hne a (by simp)
  | a :: b :: r, _, hne => by
    rw [joinSegs_cons₂]
    have := hne a (by simp)
    cases a with
    | nil => exact absurd rfl this
    | cons x xs => simp

theorem joinSegs_head? (a : JStr) (rest : List JStr) (h : a ≠ []) :
    (joinSegs (a :: rest)).head? = a.head? := by
  cases rest with
  | nil => rfl
  | cons b r =>
    rw [joinSegs_cons₂]
    cases a with
    | nil => exact absurd rfl h
    | cons x xs => rfl

theorem head?_append_left (a b : JStr) (h : a ≠ []) :
    (a ++ b).head? = a.head? := by
  cases a with
  | nil => exact absurd rfl h
  | cons x xs => rfl

theorem getLast?_cons_right (c : Char) (l : JStr) (h : l ≠ []) :
    (c :: l).getLast? = l.getLast? := by
  cases l with
  | nil => exact absurd rfl h
  | cons x xs => simp [List.getLast?_cons_cons]

theorem getLast?_append_right (a b : JStr) (h : b ≠ []) :
    (a ++ b).getLast? = b.getLast? := by
  induction a with
  | nil => rfl
  | cons x xs ih =>
    rw [List.cons_append, getLast?_cons_right x (xs ++ b) (by simp [h]), ih]

theorem getLast?_no_slash : ∀ l : JStr, '/' ∉ l → ¬ l.getLast? = some '/'
  | [], _, hc => by simp at hc
  | [x], h, hc => by
    simp only [List.getLast?_singleton, Option.some.injEq] at hc
    exact h (by simp [hc])
  | x :: y :: r, h, hc => by
    rw [List.getLast?_cons_cons] at hc
    exact getLast?_no_slash (y :: r) (fun hm => h (List.mem_cons_of_mem _ hm)) hc

theorem dropWhile_head_false (p : Char → Bool) (x : Char) (l : JStr)
    (h : p x = false) : (x :: l).dropWhile p = x :: l := by
  simp [List.dropWhile_cons, h]

theorem dropWhile_append_all (p : Char → Bool) :
    ∀ (l m : JStr), (∀ x ∈ l, p x = true) →
      (l ++ m).dropWhile p = m.dropWhile p := by
  intro l
  induction l with
  | nil => intro m _; rfl
  | cons x xs ih =>
    intro m h
    rw [List.cons_append]
    simp [List.dropWhile_cons, h x (by simp), ih m (fun y hy => h y (by simp [hy]))]

theorem takeWhile_append_all (p : Char → Bool) :
    ∀ (l m : JStr), (∀ x ∈ l, p x = true) →
      (l ++ m).takeWhile p = l ++ m.takeWhile p := by
  intro l
  induction l with
  | nil => intro m _; rfl
  | cons x xs ih =>
    intro m h
    rw [List.cons_append]
    simp [List.takeWhile_cons, h x (by simp), ih m (fun y hy => h y (by simp [hy]))]

theorem dropWhile_all (p : Char → Bool) (l : JStr) (h : ∀ x ∈ l, p x = true) :
    l.dropWhile p = [] := by
  have hh := dropWhile_append_all p l [] h
  simpa using hh

theorem take_append_self (l m : JStr) : (l ++ m).take l.length = l := by
  induction l with
  | nil => rfl
  | cons x xs ih => simp [List.take_succ_cons, ih]

theorem revAll_ne_slash (b : JStr) (hbs : '/' ∉ b) :
    ∀ x ∈ b.reverse, (fun z => decide (z ≠ '/')) x = true := by
  intro x hx
  have hxb : x ∈ b := by simpa using hx
  have hne : x ≠ '/' := fun he => hbs (he ▸ hxb)
  simp [hne]

theorem dropSlash_rev_eq (b X : JStr) (hb : b ≠ []) (hbs : '/' ∉ b) :
    (b.reverse ++ X).dropWhile (· = '/') = b.reverse ++ X := by
  obtain ⟨y, ys, hbrev⟩ : ∃ y ys, b.reverse = y :: ys := by
    cases hbr : b.reverse with
    | nil => exact absurd (by simpa using hbr) hb
    | cons y ys => exact ⟨y, ys, rfl⟩
  have hyb : y ∈ b := by
    have h2 : y ∈ b.reverse := by rw [hbrev]; simp
    simpa using h2
  have hy : ¬ y = '/' := fun he => hbs (he ▸ hyb)
  rw [hbrev, List.cons_append]
  rw [dropWhile_head_false (fun z => decide (z = '/')) y (ys ++ X) (by simp [hy])]

theorem dropSlash_rev_eq' (b : JStr) (hb : b ≠ []) (hbs : '/' ∉ b) :
    b.reverse.dropWhile (· = '/') = b.reverse := by
  have h := dropSlash_rev_eq b [] hb hbs
  simpa using h

theorem dropNonSlash_rev (b X : JStr) (hbs : '/' ∉ b) :
    (b.reverse ++ '/' :: X).dropWhile (· ≠ '/') = '/' :: X := by
  rw [dropWhile_append_all _ _ _ (revAll_ne_slash b hbs)]
  simp [List.dropWhile_cons]

theorem takeNonSlash_rev (b X : JStr) (hbs : '/' ∉ b) :
    (b.reverse ++ '/' :: X).takeWhile (· ≠ '/') = b.reverse := by
  rw [takeWhile_append_all _ _ _ (revAll_ne_slash b hbs)]
  simp [List.takeWhile_cons]

theorem basename_concat (q b : JStr) (hb : b ≠ []) (hbs : '/' ∉ b) :
    basename (q ++ '/' :: b) = b := by
  unfold basename
  rw [List.reverse_append, List.reverse_cons, List.append_assoc,
    List.singleton_append]
  rw [dropSlash_rev_eq b ('/' :: q.reverse) hb hbs]
  rw [takeNonSlash_rev b q.reverse hbs]
  simp

theorem dirname_concat (q b : JStr) (hb : b ≠ []) (hbs : '/' ∉ b) :
    dirname (q ++ '/' :: b) =
      if q = [] then ['/'] else if q = ['/'] then ['/', '/'] else q := by
  cases q with
  | nil =>
    simp only [List.nil_append]
    have hdrop : ((('/' :: b).drop 1).reverse.dropWhile (· = '/')).dropWhile (· ≠ '/')
        = [] := by
      simp only [List.drop_succ_cons, List.drop_zero]
      rw [dropSlash_rev_eq' b hb hbs]
      exact dropWhile_all _ _ (revAll_ne_slash b hbs)
    unfold dirname
    rw [if_neg (by simp), hdrop]
    simp
  | cons c q' =>
    have hdrop : ((((c :: q') ++ '/' :: b).drop 1).reverse.dropWhile (· = '/')).dropWhile
        (· ≠ '/') = '/' :: q'.reverse := by
      simp only [List.cons_append, List.drop_succ_cons, List.drop_zero]
      rw [List.reverse_append, List.reverse_cons, List.append_assoc,
        List.singleton_append]
      rw [dropSlash_rev_eq b ('/' :: q'.reverse) hb hbs]
      exact dropNonSlash_rev b q'.reverse hbs
    have hne : ¬ ((c :: q') ++ '/' :: b = []) := by simp
    unfold dirname
    rw [if_neg hne, hdrop]
    by_cases hc : c = '/'
    · by_cases hq' : q' = []
      · subst hc hq'
        simp
      · subst hc
        simp [Nat.one_add, List.take_succ_cons, take_append_self, hq']
    · by_cases hq' : q' = []
      · subst hq'
        simp [Nat.one_add, List.take_succ_cons, take_append_self, hc]
      · simp [Nat.one_add, List.take_succ_cons, take_append_self, hc, hq']

theorem pathNormalize_explicit (p : JStr) (hp : p ≠ [])
    (hdot : ∀ sg ∈ splitSlash p, sg ≠ ['.'] ∧ sg ≠ ['.', '.'])
    (hne : (splitSlash p).filter (· ≠ []) ≠ []) :
    pathNormalize p =
      (if p.head? = some '/' then ['/'] else []) ++
      joinSegs ((splitSlash p).filter (· ≠ [])) ++
      (if p.getLast? = some '/' then ['/'] else []) := by
  unfold pathNormalize
  rw [if_neg hp]
  simp only [normSegs_no_dots _ _ hdot]
  rw [if_neg hne]

theorem joinSegs_head_ne_slash (ss : List JStr) (hss : ss ≠ [])
    (hnn : ∀ sg ∈ ss, sg ≠ [] ∧ '/' ∉ sg) :
    ¬ (joinSegs ss).head? = some '/' := by
  cases ss with
  | nil => exact absurd rfl hss
  | cons a rest =>
    rw [joinSegs_head? a rest (hnn a (by simp)).1]
    cases a with
    | nil => exact absurd rfl (hnn [] (by simp)).1
    | cons c cs =>
      simp only [List.head?_cons, Option.some.injEq]
      intro he
      exact (hnn (c :: cs) (by simp)).2 (by simp [he])

theorem pathJoin_pair (x y : JStr) (hx : x ≠ []) (hy : y ≠ []) :
    pathJoin [x, y] = pathNormalize (x ++ '/' :: y) := by
  have hfilter : ([x, y].filter (· ≠ [])) = [x, y] := by
    refine filter_ne_eq_self [x, y] ?_
    intro sg hsg
    rcases List.mem_cons.1 hsg with h | h
    · subst h; exact hx
    · rcases List.mem_cons.1 h with h' | h'
      · subst h'; exact hy
      · simp at h'
  unfold pathJoin
  rw [hfilter]
  simp only []
  rw [joinSegs_cons₂]
  rfl

theorem pathJoin_three (r s x : JStr) (hr : r ≠ []) (hs : s ≠ []) (hx : x ≠ [])
    (hrdot : ∀ sg ∈ splitSlash r, sg ≠ ['.'] ∧ sg ≠ ['.', '.'])
    (hssf : '/' ∉ s) (hsdot : s ≠ ['.'] ∧ s ≠ ['.', '.'])
    (hxdot : ∀ sg ∈ splitSlash x, sg ≠ ['.'] ∧ sg ≠ ['.', '.']) :
    pathJoin [r, s, x] =
      (if r.head? = some '/' then ['/'] else []) ++
      joinSegs ((splitSlash r).filter (· ≠ []) ++
        s :: (splitSlash x).filter (· ≠ [])) ++
      (if x.getLast? = some '/' then ['/'] else []) := by
  have hfilter : ([r, s, x].filter (· ≠ [])) = [r, s, x] := by
    refine filter_ne_eq_self [r, s, x] ?_
    intro sg hsg
    rcases List.mem_cons.1 hsg with h | h
    · subst h; exact hr
    · rcases List.mem_cons.1 h with h' | h'
      · subst h'; exact hs
      · rcases List.mem_cons.1 h' with h'' | h''
        · subst h''; exact hx
        · simp at h''
  have hW : joinSegs [r, s, x] = r ++ '/' :: (s ++ '/' :: x) := by
    rw [joinSegs_cons₂, joinSegs_cons₂]
    rfl
  have hWne : r ++ '/' :: (s ++ '/' :: x) ≠ [] := by simp
  have hsplitW : splitSlash (r ++ '/' :: (s ++ '/' :: x)) =
      splitSlash r ++ ([s] ++ splitSlash x) := by
    rw [splitSlash_append_cons, splitSlash_append_cons, splitSlash_single s hssf]
  have hdotW : ∀ sg ∈ splitSlash (r ++ '/' :: (s ++ '/' :: x)),
      sg ≠ ['.'] ∧ sg ≠ ['.', '.'] := by
    rw [hsplitW]
    intro sg hsg
    rcases List.mem_append.1 hsg with h | h
    · exact hrdot sg h
    · rcases List.mem_append.1 h with h' | h'
      · rcases List.mem_cons.1 h' with h'' | h''
        · subst h''; exact hsdot
        · simp at h''
      · exact hxdot sg h'
  have hfW : (splitSlash (r ++ '/' :: (s ++ '/' :: x))).filter (· ≠ []) =
      (splitSlash r).filter (· ≠ []) ++ s :: (splitSlash x).filter (· ≠ []) := by
    rw [hsplitW, List.filter_append, List.filter_append, List.filter_cons,
      if_pos (by simpa using hs), List.filter_nil]
    rfl
  have hneW : (splitSlash (r ++ '/' :: (s ++ '/' :: x))).filter (· ≠ []) ≠ [] := by
    rw [hfW]
    simp
  have hheadW : (r ++ '/' :: (s ++ '/' :: x)).head? = r.head? :=
    head?_append_left r _ hr
  have hlastW : (r ++ '/' :: (s ++ '/' :: x)).getLast? = x.getLast? := by
    rw [getLast?_append_right r _ (by simp),
      getLast?_cons_right _ _ (by simp),
      getLast?_append_right s _ (by simp),
      getLast?_cons_right _ _ hx]
  unfold pathJoin
  rw [hfilter]
  simp only []
  rw [hW, pathNormalize_explicit _ hWne hdotW hneW, hfW, hheadW, hlastW]

theorem splitSlash_cons_slash (l : JStr) : splitSlash ('/' :: l) = [] :: splitSlash l := by
  simp [splitSlash]

theorem pathJoin_snoc (A T : JStr) (ss : List JStr) (name : JStr)
    (hA : A = [] ∨ A = ['/']) (hT : T = [] ∨ T = ['/'])
    (hss : ss ≠ [])
    (hnn : ∀ sg ∈ ss, sg ≠ [] ∧ '/' ∉ sg ∧ sg ≠ ['.'] ∧ sg ≠ ['.', '.'])
    (hname : name ≠ []) (hnsf : '/' ∉ name) (hnd1 : name ≠ ['.'])
    (hnd2 : name ≠ ['.', '.']) :
    pathJoin [A ++ joinSegs ss ++ T, name] = A ++ joinSegs (ss ++ [name]) := by
  have hmid : joinSegs ss ≠ [] :=
    joinSegs_ne_nil ss hss (fun sg h => (hnn sg h).1)
  have hssf' : ∀ sg ∈ ss, '/' ∉ sg := fun sg h => (hnn sg h).2.1
  have hround : splitSlash (joinSegs ss) = ss := splitSlash_joinSegs ss hss hssf'
  have hfss : ss.filter (· ≠ []) = ss := filter_ne_eq_self ss (fun sg h => (hnn sg h).1)
  have hheadS : ¬ (joinSegs ss).head? = some '/' :=
    joinSegs_head_ne_slash ss hss (fun sg h => ⟨(hnn sg h).1, (hnn sg h).2.1⟩)
  have hlastN : ¬ name.getLast? = some '/' := getLast?_no_slash name hnsf
  have hdotS : ∀ sg ∈ ss ++ [name], sg ≠ ['.'] ∧ sg ≠ ['.', '.'] := by
    intro sg hsg
    rcases List.mem_append.1 hsg with h | h
    · exact ⟨(hnn sg h).2.2.1, (hnn sg h).2.2.2⟩
    · rcases List.mem_cons.1 h with h' | h'
      · subst h'; exact ⟨hnd1, hnd2⟩
      · simp at h'
  have hdotS' : ∀ sg ∈ ss ++ [[], name], sg ≠ ['.'] ∧ sg ≠ ['.', '.'] := by
    intro sg hsg
    rcases List.mem_append.1 hsg with h | h
    · exact ⟨(hnn sg h).2.2.1, (hnn sg h).2.2.2⟩
    · rcases List.mem_cons.1 h with h' | h'
      · subst h'; exact ⟨by simp, by simp⟩
      · rcases List.mem_cons.1 h' with h'' | h''
        · subst h''; exact ⟨hnd1, hnd2⟩
        · simp at h''
  have hfilterS : (ss ++ [name]).filter (· ≠ []) = ss ++ [name] := by
    rw [List.filter_append, hfss, List.filter_cons, if_pos (by simpa using hname)]
    rfl
  have hfilterS' : (ss ++ [[], name]).filter (· ≠ []) = ss ++ [name] := by
    rw [List.filter_append, hfss, List.filter_cons]
    rw [if_neg (by simp), List.filter_cons, if_pos (by simpa using hname)]
    rfl
  have hneS : ss ++ [name] ≠ [] := by simp
  rcases hA with hA | hA <;> rcases hT with hT | hT <;> subst hA <;> subst hT
  · -- A = [], T = []
    simp only [List.nil_append, List.append_nil]
    rw [pathJoin_pair _ _ hmid hname]
    have hsplit : splitSlash (joinSegs ss ++ '/' :: name) = ss ++ [name] := by
      rw [splitSlash_append_cons, hround, splitSlash_single name hnsf]
    rw [pathNormalize_explicit _ (by simp) (by rw [hsplit]; exact hdotS)
      (by rw [hsplit, hfilterS]; exact hneS)]
    rw [hsplit, hfilterS]
    rw [if_neg (by rw [head?_append_left _ _ hmid]; exact hheadS)]
    rw [if_neg (by
      rw [getLast?_append_right _ _ (by simp), getLast?_cons_right _ _ hname]
      exact hlastN)]
    simp
  · -- A = [], T = ['/']
    simp only [List.nil_append]
    have hshape : joinSegs ss ++ ['/'] ++ '/' :: name =
        joinSegs ss ++ '/' :: ('/' :: name) := by
      simp [List.append_assoc]
    rw [pathJoin_pair _ _ (by simp [hmid]) hname, hshape]
    have hsplit : splitSlash (joinSegs ss ++ '/' :: ('/' :: name)) =
        ss ++ [[], name] := by
      rw [splitSlash_append_cons, hround, splitSlash_cons_slash,
        splitSlash_single name hnsf]
    rw [pathNormalize_explicit _ (by simp) (by rw [hsplit]; exact hdotS')
      (by rw [hsplit, hfilterS']; exact hneS)]
    rw [hsplit, hfilterS']
    rw [if_neg (by rw [head?_append_left _ _ hmid]; exact hheadS)]
    rw [if_neg (by
      rw [getLast?_append_right _ _ (by simp), getLast?_cons_right _ _ (by simp),
        getLast?_cons_right _ _ hname]
      exact hlastN)]
    simp
  · -- A = ['/'], T = []
    simp only [List.append_nil, List.singleton_append]
    rw [pathJoin_pair _ _ (by simp) hname]
    have hshape : ('/' :: joinSegs ss) ++ '/' :: name =
        '/' :: (joinSegs ss ++ '/' :: name) := by simp
    rw [hshape]
    have hsplit : splitSlash ('/' :: (joinSegs ss ++ '/' :: name)) =
        [] :: (ss ++ [name]) := by
      rw [splitSlash_cons_slash, splitSlash_append_cons, hround,
        splitSlash_single name hnsf]
    have hfilt : (splitSlash ('/' :: (joinSegs ss ++ '/' :: name))).filter (· ≠ []) =
        ss ++ [name] := by
      rw [hsplit, List.filter_cons, if_neg (by simp), hfilterS]
    rw [pathNormalize_explicit _ (by simp)
      (by
        rw [hsplit]
        intro sg hsg
        rcases List.mem_cons.1 hsg with h | h
        · subst h; exact ⟨by simp, by simp⟩
        · exact hdotS sg h)
      (by rw [hfilt]; exact hneS)]
    rw [hfilt]
    rw [if_pos (by simp)]
    rw [if_neg (by
      rw [getLast?_cons_right _ _ (by simp), getLast?_append_right _ _ (by simp),
        getLast?_cons_right _ _ hname]
      exact hlastN)]
    simp
  · -- A = ['/'], T = ['/']
    simp only [List.singleton_append]
    have hshape : ('/' :: joinSegs ss ++ ['/']) ++ '/' :: name =
        '/' :: (joinSegs ss ++ '/' :: ('/' :: name)) := by
      simp [List.append_assoc]
    rw [pathJoin_pair _ _ (by simp) hname, hshape]
    have hsplit : splitSlash ('/' :: (joinSegs ss ++ '/' :: ('/' :: name))) =
        [] :: (ss ++ [[], name]) := by
      rw [splitSlash_cons_slash, splitSlash_append_cons, hround,
        splitSlash_cons_slash, splitSlash_single name hnsf]
    have hfilt : (splitSlash ('/' :: (joinSegs ss ++ '/' :: ('/' :: name)))).filter
        (· ≠ []) = ss ++ [name] := by
      rw [hsplit, List.filter_cons, if_neg (by simp), hfilterS']
    rw [pathNormalize_explicit _ (by simp)
      (by
        rw [hsplit]
        intro sg hsg
        rcases List.mem_cons.1 hsg with h | h
        · subst h; exact ⟨by simp, by simp⟩
        · exact hdotS' sg h)
      (by rw [hfilt]; exact hneS)]
    rw [hfilt]
    rw [if_pos (by simp)]
    rw [if_neg (by
      rw [getLast?_cons_right _ _ (by simp), getLast?_append_right _ _ (by simp),
        getLast?_cons_right _ _ (by simp), getLast?_cons_right _ _ hname]
      exact hlastN)]
    simp

/-- C7 (amended): for a remote path of the form `q ++ "/" ++ b` with a
nonempty slash-free final segment `b`, no `"."`/`".."` segments in `q` or
in the sync root, a nonempty slash-free non-dot subfolder, and a slash-free
extension, the canonical local file path — computed by the source as
`join(join(syncRoot, subfolder, dirname(path)), basename(path) + ext)` —
equals the single join `{syncRoot}/{subfolder}/{remotePath}{extension}`. -/
theorem claim_C7_localFilePath (env : ThisExtension)
    (nb : DatabricksWorkspaceNotebook) (q b : JStr)
    (hpath : nb.path = q ++ '/' :: b)
    (hr : env.localSyncFolder ≠ [])
    (hrdot : ∀ sg ∈ splitSlash env.localSyncFolder, sg ≠ ['.'] ∧ sg ≠ ['.', '.'])
    (hs : env.workspaceSubFolder ≠ [])
    (hssf : '/' ∉ env.workspaceSubFolder)
    (hsdot : env.workspaceSubFolder ≠ ['.'] ∧ env.workspaceSubFolder ≠ ['.', '.'])
    (hqdot : ∀ sg ∈ splitSlash q, sg ≠ ['.'] ∧ sg ≠ ['.', '.'])
    (hb : b ≠ []) (hbsf : '/' ∉ b)
    (hext : '/' ∉ localFileExtension env nb)
    (hn1 : b ++ localFileExtension env nb ≠ ['.'])
    (hn2 : b ++ localFileExtension env nb ≠ ['.', '.']) :
    localFilePath env nb =
      pathJoin [env.localSyncFolder, env.workspaceSubFolder,
        nb.path ++ localFileExtension env nb] := by
  have hname : b ++ localFileExtension env nb ≠ [] := by simp [hb]
  have hnsf : '/' ∉ b ++ localFileExtension env nb := by
    intro hm
    rcases List.mem_append.1 hm with h | h
    · exact hbsf h
    · exact hext h
  have hxeq : nb.path ++ localFileExtension env nb =
      q ++ '/' :: (b ++ localFileExtension env nb) := by
    rw [hpath]
    simp
  have hsplitx : splitSlash (q ++ '/' :: (b ++ localFileExtension env nb)) =
      splitSlash q ++ [b ++ localFileExtension env nb] := by
    rw [splitSlash_append_cons, splitSlash_single _ hnsf]
  have hxdot : ∀ sg ∈ splitSlash (q ++ '/' :: (b ++ localFileExtension env nb)),
      sg ≠ ['.'] ∧ sg ≠ ['.', '.'] := by
    rw [hsplitx]
    intro sg hsg
    rcases List.mem_append.1 hsg with h | h
    · exact hqdot sg h
    · rcases List.mem_cons.1 h with h' | h'
      · subst h'; exact ⟨hn1, hn2⟩
      · simp at h'
  have hxlast : (q ++ '/' :: (b ++ localFileExtension env nb)).getLast? =
      (b ++ localFileExtension env nb).getLast? := by
    rw [getLast?_append_right _ _ (by simp), getLast?_cons_right _ _ hname]
  have hRnn : ∀ sg ∈ (splitSlash env.localSyncFolder).filter (· ≠ []),
      sg ≠ [] ∧ '/' ∉ sg ∧ sg ≠ ['.'] ∧ sg ≠ ['.', '.'] := by
    intro sg hsg
    have h1 := List.mem_filter.1 hsg
    have h2 : sg ∈ splitSlash env.localSyncFolder := h1.1
    exact ⟨by simpa using h1.2, splitSlash_sf _ sg h2, (hrdot sg h2).1, (hrdot sg h2).2⟩
  have hQnn : ∀ sg ∈ (splitSlash q).filter (· ≠ []),
      sg ≠ [] ∧ '/' ∉ sg ∧ sg ≠ ['.'] ∧ sg ≠ ['.', '.'] := by
    intro sg hsg
    have h1 := List.mem_filter.1 hsg
    have h2 : sg ∈ splitSlash q := h1.1
    exact ⟨by simpa using h1.2, splitSlash_sf _ sg h2, (hqdot sg h2).1, (hqdot sg h2).2⟩
  have habs : (if env.localSyncFolder.head? = some '/' then ['/'] else ([] : JStr)) = [] ∨
      (if env.localSyncFolder.head? = some '/' then ['/'] else ([] : JStr)) = ['/'] := by
    by_cases hh : env.localSyncFolder.head? = some '/' <;> simp [hh]
  have hsnn : ∀ sg ∈ (splitSlash env.localSyncFolder).filter (· ≠ []) ++
      [env.workspaceSubFolder],
      sg ≠ [] ∧ '/' ∉ sg ∧ sg ≠ ['.'] ∧ sg ≠ ['.', '.'] := by
    intro sg hsg
    rcases List.mem_append.1 hsg with h | h
    · exact hRnn sg h
    · rcases List.mem_cons.1 h with h' | h'
      · subst h'; exact ⟨hs, hssf, hsdot.1, hsdot.2⟩
      · simp at h'
  rw [hxeq, pathJoin_three env.localSyncFolder env.workspaceSubFolder
    (q ++ '/' :: (b ++ localFileExtension env nb)) hr hs (by simp) hrdot hssf hsdot hxdot]
  have hfc : ([b ++ localFileExtension env nb] : List JStr).filter (· ≠ []) =
      [b ++ localFileExtension env nb] := by
    simp [hname]
  have hlastpos : ¬ ((q ++ '/' :: (b ++ localFileExtension env nb)).getLast? =
      some '/') := by
    rw [hxlast]
    exact getLast?_no_slash _ hnsf
  rw [hsplitx, List.filter_append, hfc, if_neg hlastpos, List.append_nil]
  unfold localFilePath localFolderPath
  rw [hpath, basename_concat q b hb hbsf, dirname_concat q b hb hbsf]
  by_cases hq0 : q = []
  · subst hq0
    rw [if_pos rfl]
    rw [pathJoin_three env.localSyncFolder env.workspaceSubFolder ['/'] hr hs
      (by simp) hrdot hssf hsdot (by decide)]
    have hfq : (splitSlash (['/'] : JStr)).filter (· ≠ []) = [] := by decide
    rw [hfq]
    rw [show (if (['/'] : JStr).getLast? = some '/' then (['/'] : JStr) else []) = ['/']
      by decide]
    rw [pathJoin_snoc (if env.localSyncFolder.head? = some '/' then ['/'] else [])
      ['/'] ((splitSlash env.localSyncFolder).filter (· ≠ []) ++ [env.workspaceSubFolder])
      (b ++ localFileExtension env nb) habs (Or.inr rfl) (by simp) hsnn hname hnsf hn1 hn2]
    rw [show (splitSlash ([] : JStr)).filter (· ≠ []) = [] by decide]
    simp [List.append_assoc]
  · rw [if_neg hq0]
    by_cases hq1 : q = ['/']
    · subst hq1
      rw [if_pos rfl]
      rw [pathJoin_three env.localSyncFolder env.workspaceSubFolder ['/', '/'] hr hs
        (by simp) hrdot hssf hsdot (by decide)]
      rw [show (splitSlash (['/', '/'] : JStr)).filter (· ≠ []) = [] by decide]
      rw [show (if (['/', '/'] : JStr).getLast? = some '/' then (['/'] : JStr) else [])
        = ['/'] by decide]
      rw [pathJoin_snoc (if env.localSyncFolder.head? = some '/' then ['/'] else [])
        ['/'] ((splitSlash env.localSyncFolder).filter (· ≠ []) ++
          [env.workspaceSubFolder])
        (b ++ localFileExtension env nb) habs (Or.inr rfl) (by simp) hsnn hname hnsf
        hn1 hn2]
      rw [show (splitSlash (['/'] : JStr)).filter (· ≠ []) = [] by decide]
      simp [List.append_assoc]
    · rw [if_neg hq1]
      rw [pathJoin_three env.localSyncFolder env.workspaceSubFolder q hr hs hq0
        hrdot hssf hsdot hqdot]
      rw [pathJoin_snoc (if env.localSyncFolder.head? = some '/' then ['/'] else [])
        (if q.getLast? = some '/' then ['/'] else [])
        ((splitSlash env.localSyncFolder).filter (· ≠ []) ++
          env.workspaceSubFolder :: (splitSlash q).filter (· ≠ []))
        (b ++ localFileExtension env nb) habs
        (by by_cases hh : q.getLast? = some '/' <;> simp [hh])
        (by simp)
        (by
          intro sg hsg
          rcases List.mem_append.1 hsg with h | h
          · exact hRnn sg h
          · rcases List.mem_cons.1 h with h' | h'
            · subst h'; exact ⟨hs, hssf, hsdot.1, hsdot.2⟩
            · exact hQnn sg h')
        hname hnsf hn1 hn2]
      simp [List.append_assoc]

/-- C7 (counterexample to the claim as stated): for the remote path `"a/"`
(trailing separator), `basename`/`dirname` silently drop the trailing
slash, so the computed local path `r/w/a.py` differs from the claimed
single join, which yields `r/w/a/.py`. -/
theorem claim_C7_counterexample :
    ¬ (localFilePath cexEnvC7 cexNbC7 =
        pathJoin [cexEnvC7.localSyncFolder, cexEnvC7.workspaceSubFolder,
          cexNbC7.path ++ localFileExtension cexEnvC7 cexNbC7]) := by
  decide

/-- Witness for the amended C7: the notebook `/Users/me/nb` with extension
`.py` under sync root `/root` and subfolder `Workspace`. -/
theorem claim_C7_witness :
    localFilePath plainEnv plainNb =
      pathJoin [plainEnv.localSyncFolder, plainEnv.workspaceSubFolder,
        plainNb.path ++ localFileExtension plainEnv plainNb] :=
  claim_C7_localFilePath plainEnv plainNb "/Users/me".toList "nb".toList
    (by decide) (by decide) (by decide) (by decide) (by decide) (by decide)
    (by decide) (by decide) (by decide) (by decide) (by decide) (by decide)
